import Mathlib

/-!
Verification of the Delayed Batch Processor (`processWithDelay` in
`src/apptest/src/App.tsx`).

The function walks an array of numbers, awaiting a cancellable timer of
`delayTime` before each item, logging the item, and invoking an optional
progress callback.  Cancellation is an `AbortSignal` whose abort event can
fire at any instant.

Shallow embedding choices:
- JavaScript runtime values that can appear as the `numbers` argument or as
  its elements are modelled by `JsPrim` / `JsInput`.  JavaScript numbers are
  `JsNum`, with explicit `nan`, `inf`, `negInf` constructors so that
  `typeof`-based validation is modelled faithfully (`typeof NaN === "number"`).
- Time is a natural-number clock starting at 0 at the call.  An `AbortSignal`
  is modelled by `Option (Option Nat)`: `none` means no signal was supplied,
  `some none` a signal that never aborts, `some (some ta)` a signal whose
  abort fires at absolute time `ta` (so `signal.aborted` holds at times
  `t ≥ ta`).
- A run is summarised by a `RunResult`: the ordered list of observable
  events (one `emit` per `console.log`, one `progress` per `onProgress`
  call), the list of actual suspension durations, the clock at termination,
  and the outcome (`completed`, or `failed` with one of the three error
  kinds thrown by the source).
-/

namespace Beestest

/-- Payload of a JavaScript number: NaN, the two infinities, or a finite
value (the claims never compute with the value, so an integer payload
suffices to distinguish values). -/
inductive JsNum where
  | nan
  | inf
  | negInf
  | finite (v : Int)
deriving DecidableEq, Repr

/-- A JavaScript runtime value that can occur as an element of the input
array (arrays/objects occurring as elements are collapsed into
`objectLike`, which is all `typeof` can see of them). -/
inductive JsPrim where
  | num (x : JsNum)
  | str (s : String)
  | boolean (b : Bool)
  | nullV
  | undef
  | objectLike
deriving DecidableEq, Repr

/-- The `numbers` argument of `processWithDelay`: either an actual array or
some non-array value. -/
inductive JsInput where
  | array (xs : List JsPrim)
  | nonArray (v : JsPrim)
deriving DecidableEq, Repr

/-- JavaScript `typeof` on the element values. -/
def typeofJs : JsPrim → String
  | .num _ => "number"
  | .str _ => "string"
  | .boolean _ => "boolean"
  | .nullV => "object"
  | .undef => "undefined"
  | .objectLike => "object"

/-- JavaScript `Array.isArray` on the input. -/
def isArrayJs : JsInput → Bool
  | .array _ => true
  | .nonArray _ => false

/-- The three failure kinds of the processor (§7 of the spec). -/
inductive ErrorKind where
  | invalidInputKind
  | invalidElementKind
  | cancelledKind
deriving DecidableEq, Repr

/-- The message string carried by the `Error` the source throws for each
kind (`App.tsx` lines 73, 78, 95/106/113). -/
def errorMessage : ErrorKind → String
  | .invalidInputKind => "Input must be an array of numbers"
  | .invalidElementKind => "All elements in the array must be numbers"
  | .cancelledKind => "Operation was cancelled"

/-- Terminal result of one invocation. -/
inductive Outcome where
  | completed
  | failed (e : ErrorKind)
deriving DecidableEq, Repr

/-- One observable event of a run: a `console.log(numbers[i])` emission or
an `onProgress(processed, total)` call. -/
inductive Event where
  | emit (v : JsPrim)
  | progress (processed total : Nat)
deriving DecidableEq, Repr

/-- The `options` argument.  `onProgress` is modelled by whether a callback
was supplied (its invocations are recorded as events); the abort signal by
its optional abort time. -/
structure Options where
  delayTime : Option Nat := none
  onProgress : Bool := false
  signal : Option (Option Nat) := none
deriving DecidableEq, Repr

/-- Summary of one run: events in order, actual suspension durations in
order, clock value at termination, and the outcome. -/
structure RunResult where
  events : List Event
  waits : List Nat
  endTime : Nat
  outcome : Outcome
deriving DecidableEq, Repr

/-- `signal?.aborted` at time `t`. -/
def abortedAt (signal : Option (Option Nat)) (t : Nat) : Bool :=
  match signal with
  | some (some ta) => decide (ta ≤ t)
  | _ => false

/-- The awaited promise of lines 99-109: a timer resolving after
`delayTime`, raced against the abort event (which can only fire, and reject,
if the signal was supplied and aborts strictly after the listener was
registered and strictly before the timer fires; on rejection the timer is
cleared).  Returns the settle time and whether the promise rejected. -/
def awaitDelay (t delayTime : Nat) (signal : Option (Option Nat)) : Nat × Bool :=
  match signal with
  | some (some ta) =>
      if t < ta ∧ ta < t + delayTime then (ta, true) else (t + delayTime, false)
  | _ => (t + delayTime, false)

/-- The `for` loop of lines 92-123, over the remaining items, carrying the
number of items already processed and the current clock. -/
def processLoop (delayTime : Nat) (onProgress : Bool) (signal : Option (Option Nat))
    (total : Nat) : List JsPrim → Nat → Nat → RunResult
  | [], _, t => ⟨[], [], t, .completed⟩
  | x :: rest, processed, t =>
    if abortedAt signal t then
      ⟨[], [], t, .failed .cancelledKind⟩
    else
      let w := awaitDelay t delayTime signal
      if w.2 then
        ⟨[], [w.1 - t], w.1, .failed .cancelledKind⟩
      else if abortedAt signal w.1 then
        ⟨[], [delayTime], w.1, .failed .cancelledKind⟩
      else
        let evs := Event.emit x ::
          (if onProgress then [Event.progress (processed + 1) total] else [])
        let r := processLoop delayTime onProgress signal total rest (processed + 1) w.1
        ⟨evs ++ r.events, delayTime :: r.waits, r.endTime, r.outcome⟩

/-- `processWithDelay` (`App.tsx` lines 63-124): validation, empty-array
early return, then the delayed loop with default `delayTime` 1000. -/
def processWithDelay (numbers : JsInput) (options : Options := {}) : RunResult :=
  match numbers with
  | .array xs =>
    if xs.any (fun item => typeofJs item ≠ "number") then
      ⟨[], [], 0, .failed .invalidElementKind⟩
    else if xs.length = 0 then
      ⟨[], [], 0, .completed⟩
    else
      processLoop (options.delayTime.getD 1000) options.onProgress options.signal
        xs.length xs 0 0
  | .nonArray _ => ⟨[], [], 0, .failed .invalidInputKind⟩

/-- The item emissions of an event list, in order. -/
def emits (evs : List Event) : List JsPrim :=
  evs.filterMap fun e => match e with | .emit v => some v | _ => none

/-- The progress calls of an event list, in order. -/
def progresses (evs : List Event) : List (Nat × Nat) :=
  evs.filterMap fun e => match e with | .progress a b => some (a, b) | _ => none

/-- The events produced by fully processing one item (the emission followed
by the progress call when a callback was supplied). -/
def itemEvents (onProgress : Bool) (total processed : Nat) (x : JsPrim) : List Event :=
  Event.emit x :: (if onProgress then [Event.progress (processed + 1) total] else [])

/-- The full event trace of processing a list of items without interruption,
starting from `processed` items already done. -/
def fullTrace (onProgress : Bool) (total : Nat) : List JsPrim → Nat → List Event
  | [], _ => []
  | x :: rest, p => itemEvents onProgress total p x ++ fullTrace onProgress total rest (p + 1)

/-- A signal that never reports cancellation: absent, or present but never
aborting. -/
def NoAbort (signal : Option (Option Nat)) : Prop :=
  signal = none ∨ signal = some none

instance : DecidablePred NoAbort := fun s => by
  unfold NoAbort
  infer_instance

/-! ### Helper lemmas -/

lemma abortedAt_noAbort {s : Option (Option Nat)} (hs : NoAbort s) (t : Nat) :
    abortedAt s t = false := by
  rcases hs with h | h <;> subst h <;> rfl

lemma awaitDelay_noAbort {s : Option (Option Nat)} (hs : NoAbort s) (t d : Nat) :
    awaitDelay t d s = (t + d, false) := by
  rcases hs with h | h <;> subst h <;> rfl

lemma processLoop_noAbort (d : Nat) (hp : Bool) {s : Option (Option Nat)}
    (hs : NoAbort s) (total : Nat) (xs : List JsPrim) :
    ∀ (p t : Nat),
    processLoop d hp s total xs p t =
      ⟨fullTrace hp total xs p, List.replicate xs.length d,
        t + xs.length * d, .completed⟩ := by
  induction xs with
  | nil => intro p t; simp [processLoop, fullTrace]
  | cons x rest ih =>
    intro p t
    rw [processLoop]
    simp only [abortedAt_noAbort hs, awaitDelay_noAbort hs, Bool.false_eq_true,
      if_false, ih (p + 1) (t + d)]
    simp only [fullTrace, itemEvents, List.length_cons, List.replicate_succ]
    have h : t + d + rest.length * d = t + (rest.length + 1) * d := by ring
    rw [h]

lemma emits_append (a b : List Event) : emits (a ++ b) = emits a ++ emits b := by
  simp [emits]

lemma progresses_append (a b : List Event) :
    progresses (a ++ b) = progresses a ++ progresses b := by
  simp [progresses]

lemma emits_itemEvents (hp : Bool) (total p : Nat) (x : JsPrim) :
    emits (itemEvents hp total p x) = [x] := by
  cases hp <;> simp [itemEvents, emits]

lemma progresses_itemEvents (hp : Bool) (total p : Nat) (x : JsPrim) :
    progresses (itemEvents hp total p x) =
      if hp then [(p + 1, total)] else [] := by
  cases hp <;> simp [itemEvents, progresses]

lemma emits_fullTrace (hp : Bool) (total : Nat) (xs : List JsPrim) :
    ∀ p : Nat, emits (fullTrace hp total xs p) = xs := by
  induction xs with
  | nil => intro p; simp [fullTrace, emits]
  | cons x rest ih =>
    intro p
    rw [fullTrace, emits_append, emits_itemEvents, ih (p + 1)]
    rfl

lemma progresses_fullTrace_false (total : Nat) (xs : List JsPrim) :
    ∀ p : Nat, progresses (fullTrace false total xs p) = [] := by
  induction xs with
  | nil => intro p; simp [fullTrace, progresses]
  | cons x rest ih =>
    intro p
    rw [fullTrace, progresses_append, progresses_itemEvents, ih (p + 1)]
    simp

lemma progresses_fullTrace_true (total : Nat) (xs : List JsPrim) :
    ∀ p : Nat, progresses (fullTrace true total xs p) =
      (List.range xs.length).map (fun i => (p + 1 + i, total)) := by
  induction xs with
  | nil => intro p; simp [fullTrace, progresses]
  | cons x rest ih =>
    intro p
    rw [fullTrace, progresses_append, progresses_itemEvents, ih (p + 1)]
    simp only [if_true, List.length_cons, List.range_succ_eq_map, List.map_cons,
      List.map_map, List.singleton_append, Nat.add_zero]
    congr 1
    apply List.map_congr_left
    intro a _
    simp only [Function.comp_apply, Nat.succ_eq_add_one, Prod.mk.injEq]
    exact ⟨by omega, trivial⟩

lemma any_nonNumber_eq_false (xs : List JsPrim)
    (hnum : ∀ v ∈ xs, typeofJs v = "number") :
    (xs.any fun item => typeofJs item ≠ "number") = false := by
  simp only [List.any_eq_false, decide_eq_true_eq]
  intro x hx
  simp [hnum x hx]

lemma processWithDelay_numeric (xs : List JsPrim) (opts : Options)
    (hnum : ∀ v ∈ xs, typeofJs v = "number") (hne : xs ≠ []) :
    processWithDelay (.array xs) opts =
      processLoop (opts.delayTime.getD 1000) opts.onProgress opts.signal
        xs.length xs 0 0 := by
  rw [processWithDelay, any_nonNumber_eq_false xs hnum]
  simp only [Bool.false_eq_true, if_false, List.length_eq_zero]
  rw [if_neg hne]

/-! ### Claim theorems -/

/-- C1: for every non-empty array of numbers and no cancellation (no
signal, or a signal that never aborts), `processWithDelay` completes
successfully, the emitted item actions are exactly the items in index
order, and when `onProgress` is supplied it is called exactly
`length(items)` times with `(1,total), ..., (total,total)` (and never
called when absent). -/
theorem C1_nonempty_no_cancel_full_run (xs : List JsPrim) (opts : Options)
    (hnum : ∀ v ∈ xs, typeofJs v = "number") (hne : xs ≠ [])
    (hs : NoAbort opts.signal) :
    (processWithDelay (.array xs) opts).outcome = .completed ∧
    emits (processWithDelay (.array xs) opts).events = xs ∧
    (opts.onProgress = true →
      progresses (processWithDelay (.array xs) opts).events =
        (List.range xs.length).map (fun i => (i + 1, xs.length))) ∧
    (opts.onProgress = false →
      progresses (processWithDelay (.array xs) opts).events = []) := by
  rw [processWithDelay_numeric xs opts hnum hne,
    processLoop_noAbort _ _ hs _ _ 0 0]
  refine ⟨rfl, emits_fullTrace _ _ _ 0, fun hp => ?_, fun hp => ?_⟩
  · rw [hp, progresses_fullTrace_true _ _ 0]
    apply List.map_congr_left
    intro a _
    simp only [Prod.mk.injEq]
    exact ⟨by omega, trivial⟩
  · rw [hp, progresses_fullTrace_false _ _ 0]

/-- C1 witness: a concrete two-item run with a supplied progress callback
and no signal. -/
theorem C1_witness :
    (∀ v ∈ [JsPrim.num (.finite 1), JsPrim.num (.finite 2)],
        typeofJs v = "number") ∧
    ([JsPrim.num (.finite 1), JsPrim.num (.finite 2)] ≠ []) ∧
    ((processWithDelay
        (.array [JsPrim.num (.finite 1), JsPrim.num (.finite 2)])
        ⟨some 5, true, none⟩).outcome = .completed ∧
      emits (processWithDelay
        (.array [JsPrim.num (.finite 1), JsPrim.num (.finite 2)])
        ⟨some 5, true, none⟩).events =
        [JsPrim.num (.finite 1), JsPrim.num (.finite 2)] ∧
      ((Options.mk (some 5) true none).onProgress = true →
        progresses (processWithDelay
          (.array [JsPrim.num (.finite 1), JsPrim.num (.finite 2)])
          ⟨some 5, true, none⟩).events =
          (List.range 2).map (fun i => (i + 1, 2))) ∧
      ((Options.mk (some 5) true none).onProgress = false →
        progresses (processWithDelay
          (.array [JsPrim.num (.finite 1), JsPrim.num (.finite 2)])
          ⟨some 5, true, none⟩).events = [])) :=
  ⟨by decide, by decide,
    C1_nonempty_no_cancel_full_run _ ⟨some 5, true, none⟩ (by decide) (by decide)
      (Or.inl rfl)⟩

/-- C3: a non-array input fails with `InvalidInputKind`, and an array
containing a non-numeric element fails with `InvalidElementKind`; in both
cases the failure is at entry (time 0) with no suspension, no emission and
no progress call. -/
theorem C3_validation_at_entry (v : JsInput) (opts : Options) :
    (isArrayJs v = false →
      processWithDelay v opts = ⟨[], [], 0, .failed .invalidInputKind⟩) ∧
    (∀ xs, v = .array xs → (∃ x ∈ xs, typeofJs x ≠ "number") →
      processWithDelay v opts = ⟨[], [], 0, .failed .invalidElementKind⟩) := by
  constructor
  · intro hv
    cases v with
    | array xs => simp [isArrayJs] at hv
    | nonArray w => rfl
  · rintro xs rfl ⟨x, hx, hxty⟩
    rw [processWithDelay]
    have : (xs.any fun item => typeofJs item ≠ "number") = true := by
      simp only [List.any_eq_true, decide_eq_true_eq]
      exact ⟨x, hx, hxty⟩
    rw [this]
    simp

/-- C3 witness: the spec's own examples, a string input and `[1,"two",3]`. -/
theorem C3_witness :
    processWithDelay (.nonArray (.str "not an array")) {} =
      ⟨[], [], 0, .failed .invalidInputKind⟩ ∧
    processWithDelay
        (.array [.num (.finite 1), .str "two", .num (.finite 3)]) {} =
      ⟨[], [], 0, .failed .invalidElementKind⟩ :=
  ⟨(C3_validation_at_entry (.nonArray (.str "not an array")) {}).1 rfl,
    (C3_validation_at_entry _ {}).2
      [.num (.finite 1), .str "two", .num (.finite 3)] rfl
      ⟨.str "two", by decide, by decide⟩⟩

/-- C4: for every configuration (any delay, any progress callback, any
signal state, including an already-aborted one), the empty array completes
immediately and successfully with no suspension, no emission and no
progress call. -/
theorem C4_empty_completes (opts : Options) :
    processWithDelay (.array []) opts = ⟨[], [], 0, .completed⟩ := rfl

/-- C5: a non-empty array of numbers with a signal already aborted at call
time fails with `CancelledKind` before any delay, with zero emissions and
zero progress calls. -/
theorem C5_pre_cancelled (xs : List JsPrim) (opts : Options)
    (hnum : ∀ v ∈ xs, typeofJs v = "number") (hne : xs ≠ [])
    (hab : abortedAt opts.signal 0 = true) :
    processWithDelay (.array xs) opts = ⟨[], [], 0, .failed .cancelledKind⟩ := by
  rw [processWithDelay_numeric xs opts hnum hne]
  cases xs with
  | nil => exact absurd rfl hne
  | cons x rest => rw [processLoop, hab]; rfl

/-- C5 witness: `[1,2,3]` with a signal aborted at time 0. -/
theorem C5_witness :
    processWithDelay
        (.array [.num (.finite 1), .num (.finite 2), .num (.finite 3)])
        ⟨none, true, some (some 0)⟩ =
      ⟨[], [], 0, .failed .cancelledKind⟩ :=
  C5_pre_cancelled _ ⟨none, true, some (some 0)⟩ (by decide) (by decide) rfl

/-- C10: the empty-array early return precedes every cancellation check:
with an empty array and a signal already aborted at call time, the run
still completes successfully and does not fail with `CancelledKind`. -/
theorem C10_empty_beats_cancellation (opts : Options)
    (_hab : abortedAt opts.signal 0 = true) :
    processWithDelay (.array []) opts = ⟨[], [], 0, .completed⟩ ∧
    (processWithDelay (.array []) opts).outcome ≠
      Outcome.failed ErrorKind.cancelledKind := by
  constructor
  · rfl
  · have h : (processWithDelay (.array []) opts).outcome = Outcome.completed := rfl
    rw [h]
    decide

/-- C10 witness: empty array with a signal aborted at time 0. -/
theorem C10_witness :
    processWithDelay (.array []) ⟨some 100, true, some (some 0)⟩ =
      ⟨[], [], 0, .completed⟩ ∧
    (processWithDelay (.array []) ⟨some 100, true, some (some 0)⟩).outcome ≠
      Outcome.failed ErrorKind.cancelledKind :=
  C10_empty_beats_cancellation ⟨some 100, true, some (some 0)⟩ rfl

lemma processLoop_cancel_during (d : Nat) (hp : Bool) (total ta : Nat) :
    ∀ (m : Nat) (xs : List JsPrim) (p t : Nat), m < xs.length →
      t + m * d < ta → ta < t + (m + 1) * d →
      processLoop d hp (some (some ta)) total xs p t =
        ⟨fullTrace hp total (xs.take m) p,
          List.replicate m d ++ [ta - (t + m * d)], ta,
          .failed .cancelledKind⟩ := by
  intro m
  induction m with
  | zero =>
    intro xs p t hm hlo hhi
    cases xs with
    | nil => simp at hm
    | cons x rest =>
      have htlt : t < ta := by omega
      have h1 : abortedAt (some (some ta)) t = false := by
        simp only [abortedAt, decide_eq_false_iff_not]
        omega
      have h2 : awaitDelay t d (some (some ta)) = (ta, true) := by
        rw [awaitDelay, if_pos]
        refine ⟨htlt, ?_⟩
        omega
      rw [processLoop]
      simp only [h1, h2, Bool.false_eq_true, if_false, if_true]
      simp [fullTrace]
  | succ n ih =>
    intro xs p t hm hlo hhi
    cases xs with
    | nil => simp at hm
    | cons x rest =>
      have htlt : t < ta := lt_of_le_of_lt (Nat.le_add_right t ((n + 1) * d)) hlo
      have hd1 : d ≤ (n + 1) * d := Nat.le_mul_of_pos_left d (Nat.succ_pos n)
      have htd : t + d < ta := lt_of_le_of_lt (Nat.add_le_add_left hd1 t) hlo
      have h1 : abortedAt (some (some ta)) t = false := by
        simp only [abortedAt, decide_eq_false_iff_not]
        omega
      have h2 : awaitDelay t d (some (some ta)) = (t + d, false) := by
        rw [awaitDelay, if_neg]
        intro hcontra
        omega
      have h3 : abortedAt (some (some ta)) (t + d) = false := by
        simp only [abortedAt, decide_eq_false_iff_not]
        omega
      have hlo2 : (t + d) + n * d < ta := by
        have : t + d + n * d = t + (n + 1) * d := by ring
        omega
      have hhi2 : ta < (t + d) + (n + 1) * d := by
        have : t + d + (n + 1) * d = t + (n + 1 + 1) * d := by ring
        omega
      have hm2 : n < rest.length := by
        simp only [List.length_cons] at hm
        omega
      rw [processLoop]
      simp only [h1, h2, h3, Bool.false_eq_true, if_false,
        ih rest (p + 1) (t + d) hm2 hlo2 hhi2]
      simp only [List.take_succ_cons, fullTrace, itemEvents,
        List.replicate_succ, List.cons_append]
      have harith : t + d + n * d = t + (n + 1) * d := by ring
      rw [harith]

lemma processLoop_events_prefix (d : Nat) (hp : Bool) (s : Option (Option Nat))
    (total : Nat) (xs : List JsPrim) :
    ∀ (p t : Nat), ∃ j, j ≤ xs.length ∧
      (processLoop d hp s total xs p t).events = fullTrace hp total (xs.take j) p ∧
      ((processLoop d hp s total xs p t).outcome = .failed .cancelledKind ∨
        (processLoop d hp s total xs p t).outcome = .completed) := by
  induction xs with
  | nil =>
    intro p t
    exact ⟨0, Nat.le_refl 0, by simp [processLoop, fullTrace], Or.inr rfl⟩
  | cons x rest ih =>
    intro p t
    simp only [processLoop]
    split
    · exact ⟨0, Nat.zero_le _, by simp [fullTrace], Or.inl rfl⟩
    · split
      · exact ⟨0, Nat.zero_le _, by simp [fullTrace], Or.inl rfl⟩
      · split
        · exact ⟨0, Nat.zero_le _, by simp [fullTrace], Or.inl rfl⟩
        · obtain ⟨j, hj, hev, hout⟩ := ih (p + 1) (awaitDelay t d s).1
          refine ⟨j + 1, ?_, ?_, ?_⟩
          · simp only [List.length_cons]
            omega
          · simp only [List.take_succ_cons, fullTrace, itemEvents, hev]
          · simpa using hout

/-- C2: with a signal that aborts at time `ta` falling inside the wait for
item `k` (1-indexed), the run emits item actions and progress calls for
items `1..k-1` only, fails with `CancelledKind`, and the suspension for
item `k` is interrupted at the instant of the signal: the run ends at time
`ta` (not after the full delay), the first `k-1` suspensions last the full
delay and the `k`-th only `ta - (k-1)·delay`. -/
theorem C2_cancelled_during_wait_k (xs : List JsPrim) (opts : Options) (k ta : Nat)
    (hnum : ∀ v ∈ xs, typeofJs v = "number")
    (hk1 : 1 ≤ k) (hk2 : k ≤ xs.length)
    (hsig : opts.signal = some (some ta))
    (hlo : (k - 1) * (opts.delayTime.getD 1000) < ta)
    (hhi : ta < k * (opts.delayTime.getD 1000)) :
    (processWithDelay (.array xs) opts).outcome =
      Outcome.failed ErrorKind.cancelledKind ∧
    emits (processWithDelay (.array xs) opts).events = xs.take (k - 1) ∧
    (opts.onProgress = true →
      progresses (processWithDelay (.array xs) opts).events =
        (List.range (k - 1)).map (fun i => (i + 1, xs.length))) ∧
    (processWithDelay (.array xs) opts).endTime = ta ∧
    (processWithDelay (.array xs) opts).waits =
      List.replicate (k - 1) (opts.delayTime.getD 1000) ++
        [ta - (k - 1) * (opts.delayTime.getD 1000)] := by
  have hne : xs ≠ [] := by
    intro h
    subst h
    simp only [List.length_nil] at hk2
    omega
  have hmlt : k - 1 < xs.length := by omega
  have hlo2 : 0 + (k - 1) * (opts.delayTime.getD 1000) < ta := by simpa using hlo
  have hhi2 : ta < 0 + ((k - 1) + 1) * (opts.delayTime.getD 1000) := by
    have hk : k - 1 + 1 = k := by omega
    rw [hk]
    simpa using hhi
  have key := processLoop_cancel_during (opts.delayTime.getD 1000) opts.onProgress
    xs.length ta (k - 1) xs 0 0 hmlt hlo2 hhi2
  rw [processWithDelay_numeric xs opts hnum hne, hsig, key]
  refine ⟨rfl, emits_fullTrace _ _ _ 0, ?_, rfl, ?_⟩
  · intro hpr
    rw [hpr, progresses_fullTrace_true _ _ 0]
    have hlen : (xs.take (k - 1)).length = k - 1 := by
      rw [List.length_take]
      omega
    rw [hlen]
    apply List.map_congr_left
    intro a _
    simp only [Prod.mk.injEq]
    exact ⟨by omega, trivial⟩
  · simp

/-- C2 witness: `[1,2,3]` with delay 10 and a signal aborting at time 15,
inside the wait for item 2. -/
theorem C2_witness :
    (processWithDelay
        (.array [.num (.finite 1), .num (.finite 2), .num (.finite 3)])
        ⟨some 10, true, some (some 15)⟩).outcome =
      Outcome.failed ErrorKind.cancelledKind ∧
    emits (processWithDelay
        (.array [.num (.finite 1), .num (.finite 2), .num (.finite 3)])
        ⟨some 10, true, some (some 15)⟩).events = [JsPrim.num (.finite 1)] ∧
    ((Options.mk (some 10) true (some (some 15))).onProgress = true →
      progresses (processWithDelay
        (.array [.num (.finite 1), .num (.finite 2), .num (.finite 3)])
        ⟨some 10, true, some (some 15)⟩).events =
        (List.range 1).map (fun i => (i + 1, 3))) ∧
    (processWithDelay
        (.array [.num (.finite 1), .num (.finite 2), .num (.finite 3)])
        ⟨some 10, true, some (some 15)⟩).endTime = 15 ∧
    (processWithDelay
        (.array [.num (.finite 1), .num (.finite 2), .num (.finite 3)])
        ⟨some 10, true, some (some 15)⟩).waits =
      List.replicate 1 10 ++ [15 - 1 * 10] :=
  C2_cancelled_during_wait_k _ ⟨some 10, true, some (some 15)⟩ 2 15
    (by decide) (by decide) (by decide) rfl (by decide) (by decide)

/-- C6: in a run over numbers that fails with `CancelledKind`, the observed
events are exactly the complete per-item traces of the first `j` items for
some `j`: no item action and no progress call occurs past the last fully
processed item once cancellation is observed, the progress already reported
for those `j` items stands, and the single surfaced outcome is the one
`CancelledKind` failure. -/
theorem C6_cancellation_stops_run (xs : List JsPrim) (opts : Options)
    (hnum : ∀ v ∈ xs, typeofJs v = "number")
    (hcancel : (processWithDelay (.array xs) opts).outcome =
      Outcome.failed ErrorKind.cancelledKind) :
    ∃ j, j ≤ xs.length ∧
      emits (processWithDelay (.array xs) opts).events = xs.take j ∧
      (opts.onProgress = true →
        progresses (processWithDelay (.array xs) opts).events =
          (List.range j).map (fun i => (i + 1, xs.length))) ∧
      (opts.onProgress = false →
        progresses (processWithDelay (.array xs) opts).events = []) := by
  have hne : xs ≠ [] := by
    intro h
    subst h
    simp [processWithDelay] at hcancel
  rw [processWithDelay_numeric xs opts hnum hne]
  obtain ⟨j, hj, hev, _⟩ :=
    processLoop_events_prefix (opts.delayTime.getD 1000) opts.onProgress
      opts.signal xs.length xs 0 0
  refine ⟨j, hj, ?_, ?_, ?_⟩
  · rw [hev]
    exact emits_fullTrace _ _ _ 0
  · intro hpr
    rw [hev, hpr, progresses_fullTrace_true _ _ 0]
    have hlen : (xs.take j).length = j := by
      rw [List.length_take]
      omega
    rw [hlen]
    apply List.map_congr_left
    intro a _
    simp only [Prod.mk.injEq]
    exact ⟨by omega, trivial⟩
  · intro hpr
    rw [hev, hpr, progresses_fullTrace_false]

/-- C6 witness: `[1,2]` with delay 10 and a signal aborting at time 15 (a
cancelled run), instantiating the prefix property. -/
theorem C6_witness :
    (∀ v ∈ [JsPrim.num (.finite 1), JsPrim.num (.finite 2)],
        typeofJs v = "number") ∧
    ((processWithDelay (.array [JsPrim.num (.finite 1), JsPrim.num (.finite 2)])
        ⟨some 10, true, some (some 15)⟩).outcome =
      Outcome.failed ErrorKind.cancelledKind) ∧
    (∃ j, j ≤ 2 ∧
      emits (processWithDelay
        (.array [JsPrim.num (.finite 1), JsPrim.num (.finite 2)])
        ⟨some 10, true, some (some 15)⟩).events =
        [JsPrim.num (.finite 1), JsPrim.num (.finite 2)].take j ∧
      ((Options.mk (some 10) true (some (some 15))).onProgress = true →
        progresses (processWithDelay
          (.array [JsPrim.num (.finite 1), JsPrim.num (.finite 2)])
          ⟨some 10, true, some (some 15)⟩).events =
          (List.range j).map (fun i => (i + 1, 2))) ∧
      ((Options.mk (some 10) true (some (some 15))).onProgress = false →
        progresses (processWithDelay
          (.array [JsPrim.num (.finite 1), JsPrim.num (.finite 2)])
          ⟨some 10, true, some (some 15)⟩).events = [])) :=
  ⟨by decide, by decide,
    C6_cancellation_stops_run [JsPrim.num (.finite 1), JsPrim.num (.finite 2)]
      ⟨some 10, true, some (some 15)⟩ (by decide) (by decide)⟩

/-- C7: when `delayTime` is absent the default 1000 is used (the run is
identical to one configured with 1000), and in an uncancelled run the
configured delay is applied uniformly before every item including the
first: `n` items give exactly `n` suspensions of `delayTime` each, ending
at time `n·delayTime`. -/
theorem C7_default_and_uniform_delay (xs : List JsPrim) (hp : Bool)
    (s : Option (Option Nat)) (hnum : ∀ v ∈ xs, typeofJs v = "number")
    (hs : NoAbort s) :
    processWithDelay (.array xs) ⟨none, hp, s⟩ =
      processWithDelay (.array xs) ⟨some 1000, hp, s⟩ ∧
    ∀ d : Nat,
      (processWithDelay (.array xs) ⟨some d, hp, s⟩).waits =
        List.replicate xs.length d ∧
      (processWithDelay (.array xs) ⟨some d, hp, s⟩).endTime = xs.length * d := by
  by_cases hne : xs = []
  · subst hne
    refine ⟨rfl, fun d => ⟨rfl, ?_⟩⟩
    simp only [List.length_nil, Nat.zero_mul]
    rfl
  · constructor
    · rw [processWithDelay_numeric xs _ hnum hne,
        processWithDelay_numeric xs _ hnum hne]
      rfl
    · intro d
      rw [processWithDelay_numeric xs _ hnum hne,
        processLoop_noAbort _ _ hs _ _ 0 0]
      exact ⟨rfl, by simp⟩

/-- C7 witness: a one-item run with an absent delay, and with delay 5. -/
theorem C7_witness :
    (∀ v ∈ [JsPrim.num (.finite 7)], typeofJs v = "number") ∧
    NoAbort (some none) ∧
    processWithDelay (.array [JsPrim.num (.finite 7)]) ⟨none, false, some none⟩ =
      processWithDelay (.array [JsPrim.num (.finite 7)])
        ⟨some 1000, false, some none⟩ ∧
    (processWithDelay (.array [JsPrim.num (.finite 7)])
        ⟨some 5, false, some none⟩).waits = List.replicate 1 5 ∧
    (processWithDelay (.array [JsPrim.num (.finite 7)])
        ⟨some 5, false, some none⟩).endTime = 1 * 5 :=
  ⟨by decide, Or.inr rfl,
    (C7_default_and_uniform_delay _ false (some none) (by decide) (Or.inr rfl)).1,
    ((C7_default_and_uniform_delay _ false (some none) (by decide) (Or.inr rfl)).2 5).1,
    ((C7_default_and_uniform_delay _ false (some none) (by decide) (Or.inr rfl)).2 5).2⟩

lemma processWithDelay_invalidElement (xs : List JsPrim) (opts : Options)
    (h : (xs.any fun item => typeofJs item ≠ "number") = true) :
    processWithDelay (.array xs) opts =
      ⟨[], [], 0, .failed .invalidElementKind⟩ := by
  rw [processWithDelay, h]
  rfl

/-- C8: the processor is deterministic: two invocations on the same input
with configurations that agree on delay and progress callback and whose
signals never report cancellation produce identical run results (same
events, same suspensions, same end time, same outcome). -/
theorem C8_deterministic_runs (v : JsInput) (o1 o2 : Options)
    (hd : o1.delayTime = o2.delayTime) (hpr : o1.onProgress = o2.onProgress)
    (h1 : NoAbort o1.signal) (h2 : NoAbort o2.signal) :
    processWithDelay v o1 = processWithDelay v o2 := by
  cases v with
  | nonArray w => rfl
  | array xs =>
    by_cases hval : (xs.any fun item => typeofJs item ≠ "number") = true
    · rw [processWithDelay_invalidElement xs o1 hval,
        processWithDelay_invalidElement xs o2 hval]
    · have hnum : ∀ w ∈ xs, typeofJs w = "number" := by
        intro w hw
        by_contra hcontra
        exact hval (by
          simp only [List.any_eq_true, decide_eq_true_eq]
          exact ⟨w, hw, hcontra⟩)
      by_cases hne : xs = []
      · subst hne
        rfl
      · rw [processWithDelay_numeric xs o1 hnum hne,
          processWithDelay_numeric xs o2 hnum hne, hd, hpr,
          processLoop_noAbort _ _ h1, processLoop_noAbort _ _ h2]

/-- C8 witness: the same one-item input under an absent signal and a
never-aborting signal. -/
theorem C8_witness :
    processWithDelay (.array [JsPrim.num (.finite 4)]) ⟨some 3, true, none⟩ =
      processWithDelay (.array [JsPrim.num (.finite 4)])
        ⟨some 3, true, some none⟩ :=
  C8_deterministic_runs _ _ _ rfl rfl (Or.inl rfl) (Or.inr rfl)

/-- C9: element validation is `typeof`-based: `NaN` (whose `typeof` is
`"number"`) is accepted, so `process([NaN], \x7bdelayTime: 0\x7d)` completes
successfully and emits `NaN`; and a run fails with `InvalidElementKind`
exactly when some element's runtime type differs from `number`. -/
theorem C9_nan_is_number (opts : Options) :
    processWithDelay (.array [.num .nan]) ⟨some 0, false, none⟩ =
      ⟨[Event.emit (.num .nan)], [0], 0, .completed⟩ ∧
    ∀ xs : List JsPrim,
      ((processWithDelay (.array xs) opts).outcome =
          Outcome.failed ErrorKind.invalidElementKind ↔
        ∃ v ∈ xs, typeofJs v ≠ "number") := by
  constructor
  · rfl
  · intro xs
    constructor
    · intro h
      by_contra hnone
      push_neg at hnone
      by_cases hne : xs = []
      · subst hne
        simp [processWithDelay] at h
      · rw [processWithDelay_numeric xs opts hnone hne] at h
        obtain ⟨j, hj, hev, hout⟩ :=
          processLoop_events_prefix (opts.delayTime.getD 1000) opts.onProgress
            opts.signal xs.length xs 0 0
        rcases hout with h1 | h1 <;> rw [h] at h1 <;> simp at h1
    · rintro ⟨w, hw, hwty⟩
      rw [processWithDelay]
      have hany : (xs.any fun item => typeofJs item ≠ "number") = true := by
        simp only [List.any_eq_true, decide_eq_true_eq]
        exact ⟨w, hw, hwty⟩
      rw [hany]
      rfl

/-- C9 witness: the NaN run, and the `InvalidElementKind` criterion applied
to a string element. -/
theorem C9_witness :
    (processWithDelay (.array [.num .nan]) ⟨some 0, false, none⟩ =
      ⟨[Event.emit (.num .nan)], [0], 0, .completed⟩) ∧
    ((processWithDelay (.array [.str "two"]) {}).outcome =
      Outcome.failed ErrorKind.invalidElementKind) :=
  ⟨(C9_nan_is_number {}).1,
    ((C9_nan_is_number {}).2 [.str "two"]).mpr ⟨.str "two", by decide, by decide⟩⟩

end Beestest
